import Mathlib

/-!
# Verification of the load balancer core (src/src/main.rs)

Shallow embedding of the connection load balancer. Network effects are
abstracted by oracles: the availability probe becomes a function
`avail : String → Bool`, and the nondeterministic outcomes inside the
tunnel relay (backend connect, copy completion order, copy results,
shutdown results) become an explicit `RelayWorld` record. Machine
integers (`usize`) are modelled as `Nat` with the 64-bit bound
`USIZE_MAX` made explicit where the source mentions `usize::MAX`.
-/

/-- `usize::MAX` on the 64-bit target the source is built for. -/
def USIZE_MAX : Nat := 2 ^ 64 - 1

/-- A backend server (struct `Backend`, main.rs lines 15-21): an address and
the live counter of connections currently relayed to it. The `Arc<Mutex<usize>>`
is modelled by its current value; sharing is handled at the points where the
counter evolution matters (see `HandlerTrace`). -/
structure Backend where
  address : String
  active_connections : Nat
deriving DecidableEq, Repr

/-- `check_backend_available` (main.rs lines 27-29): a TCP connect attempt whose
network outcome is abstracted by the oracle `avail`. -/
def check_backend_available (avail : String → Bool) (backend_address : String) : Bool :=
  avail backend_address

/-- The `for backend in backends` loop of `select_backend` (main.rs lines 39-48),
with the mutable loop state (`min_conn_backend`, `min_conns`) passed explicitly. -/
def selectLoop (avail : String → Bool) :
    List Backend → Option Backend → Nat → Option Backend
  | [], min_conn_backend, _ => min_conn_backend
  | b :: rest, min_conn_backend, min_conns =>
    if check_backend_available avail b.address then
      if b.active_connections < min_conns then
        selectLoop avail rest (some b) b.active_connections
      else
        selectLoop avail rest min_conn_backend min_conns
    else
      selectLoop avail rest min_conn_backend min_conns

/-- `select_backend` (main.rs lines 36-51): scan the pool in order, starting from
`min_conn_backend = None` and `min_conns = usize::MAX`. -/
def select_backend (avail : String → Bool) (backends : List Backend) : Option Backend :=
  selectLoop avail backends none USIZE_MAX

/-- Full characterization of the selection loop: a returned backend is either the
incoming accumulator (when nothing in the remaining list beats `min_conns`), or an
element of the list that probes available, beats `min_conns`, is strictly below every
available backend listed before it and at most every available backend listed after it. -/
theorem selectLoop_spec (avail : String → Bool) (l : List Backend) :
    ∀ (acc : Option Backend) (m : Nat) (r : Backend),
      selectLoop avail l acc m = some r →
      (acc = some r ∧ ∀ b ∈ l, avail b.address = true → ¬ b.active_connections < m) ∨
      (∃ l1 l2, l = l1 ++ (r :: l2) ∧ avail r.address = true ∧ r.active_connections < m ∧
        (∀ c ∈ l1, avail c.address = true → r.active_connections < c.active_connections) ∧
        (∀ c ∈ l2, avail c.address = true → r.active_connections ≤ c.active_connections)) := by
  induction l with
  | nil =>
    intro acc m r h
    left
    refine ⟨h, ?_⟩
    intro b hb
    exact absurd hb (List.not_mem_nil b)
  | cons b rest ih =>
    intro acc m r h
    cases hav : avail b.address with
    | false =>
      have h' : selectLoop avail rest acc m = some r := by
        simpa [selectLoop, check_backend_available, hav] using h
      rcases ih acc m r h' with ⟨hacc, hall⟩ | ⟨l1, l2, hsplit, hr1, hr2, hr3, hr4⟩
      · left
        refine ⟨hacc, ?_⟩
        intro c hc hcav
        rcases List.mem_cons.mp hc with rfl | hcr
        · rw [hav] at hcav; exact absurd hcav (by simp)
        · exact hall c hcr hcav
      · right
        refine ⟨b :: l1, l2, by rw [hsplit, List.cons_append], hr1, hr2, ?_, hr4⟩
        intro c hc hcav
        rcases List.mem_cons.mp hc with rfl | hcr
        · rw [hav] at hcav; exact absurd hcav (by simp)
        · exact hr3 c hcr hcav
    | true =>
      by_cases hlt : b.active_connections < m
      · have h' : selectLoop avail rest (some b) b.active_connections = some r := by
          simpa [selectLoop, check_backend_available, hav, hlt] using h
        rcases ih (some b) b.active_connections r h' with ⟨hacc, hall⟩ |
          ⟨l1, l2, hsplit, hr1, hr2, hr3, hr4⟩
        · have hbr : b = r := Option.some.inj hacc
          subst hbr
          right
          refine ⟨[], rest, by simp, hav, hlt, ?_, ?_⟩
          · intro c hc; exact absurd hc (List.not_mem_nil c)
          · intro c hc hcav
            exact Nat.le_of_not_lt (hall c hc hcav)
        · right
          refine ⟨b :: l1, l2, by rw [hsplit, List.cons_append], hr1,
            Nat.lt_trans hr2 hlt, ?_, hr4⟩
          intro c hc hcav
          rcases List.mem_cons.mp hc with rfl | hcr
          · exact hr2
          · exact hr3 c hcr hcav
      · have h' : selectLoop avail rest acc m = some r := by
          simpa [selectLoop, check_backend_available, hav, hlt] using h
        rcases ih acc m r h' with ⟨hacc, hall⟩ | ⟨l1, l2, hsplit, hr1, hr2, hr3, hr4⟩
        · left
          refine ⟨hacc, ?_⟩
          intro c hc hcav
          rcases List.mem_cons.mp hc with rfl | hcr
          · exact hlt
          · exact hall c hcr hcav
        · right
          refine ⟨b :: l1, l2, by rw [hsplit, List.cons_append], hr1, hr2, ?_, hr4⟩
          intro c hc hcav
          rcases List.mem_cons.mp hc with rfl | hcr
          · exact Nat.lt_of_lt_of_le hr2 (Nat.le_of_not_lt hlt)
          · exact hr3 c hcr hcav

/-- A backend returned by `select_backend` splits the pool around itself: it probes
available, its count is strictly below `usize::MAX`, strictly below every available
backend before it, and at most every available backend after it. -/
theorem select_backend_spec (avail : String → Bool) (pool : List Backend) (r : Backend)
    (h : select_backend avail pool = some r) :
    ∃ l1 l2, pool = l1 ++ (r :: l2) ∧ avail r.address = true ∧
      r.active_connections < USIZE_MAX ∧
      (∀ c ∈ l1, avail c.address = true → r.active_connections < c.active_connections) ∧
      (∀ c ∈ l2, avail c.address = true → r.active_connections ≤ c.active_connections) := by
  rcases selectLoop_spec avail pool none USIZE_MAX r h with ⟨hacc, _⟩ | hex
  · exact absurd hacc (by simp)
  · exact hex

/-- If the accumulator is already `some`, the loop can never return `none`. -/
theorem selectLoop_some_acc (avail : String → Bool) (l : List Backend) :
    ∀ (a : Backend) (m : Nat), ∃ r, selectLoop avail l (some a) m = some r := by
  induction l with
  | nil => intro a m; exact ⟨a, rfl⟩
  | cons b rest ih =>
    intro a m
    cases hav : avail b.address with
    | false =>
      rcases ih a m with ⟨r, hr⟩
      exact ⟨r, by simpa [selectLoop, check_backend_available, hav] using hr⟩
    | true =>
      by_cases hlt : b.active_connections < m
      · rcases ih b b.active_connections with ⟨r, hr⟩
        exact ⟨r, by simpa [selectLoop, check_backend_available, hav, hlt] using hr⟩
      · rcases ih a m with ⟨r, hr⟩
        exact ⟨r, by simpa [selectLoop, check_backend_available, hav, hlt] using hr⟩

/-- If some list element probes available and beats the running minimum, the loop
returns a backend. -/
theorem selectLoop_isSome (avail : String → Bool) (l : List Backend) :
    ∀ (acc : Option Backend) (m : Nat),
      (∃ b ∈ l, avail b.address = true ∧ b.active_connections < m) →
      ∃ r, selectLoop avail l acc m = some r := by
  induction l with
  | nil =>
    intro acc m hex
    rcases hex with ⟨b, hb, _⟩
    exact absurd hb (List.not_mem_nil b)
  | cons b rest ih =>
    intro acc m hex
    cases hav : avail b.address with
    | false =>
      rcases hex with ⟨b0, hb0, hbav, hblt⟩
      rcases List.mem_cons.mp hb0 with rfl | hb0r
      · rw [hav] at hbav; exact absurd hbav (by simp)
      · rcases ih acc m ⟨b0, hb0r, hbav, hblt⟩ with ⟨r, hr⟩
        exact ⟨r, by simpa [selectLoop, check_backend_available, hav] using hr⟩
    | true =>
      by_cases hlt : b.active_connections < m
      · rcases selectLoop_some_acc avail rest b b.active_connections with ⟨r, hr⟩
        exact ⟨r, by simpa [selectLoop, check_backend_available, hav, hlt] using hr⟩
      · rcases hex with ⟨b0, hb0, hbav, hblt⟩
        rcases List.mem_cons.mp hb0 with rfl | hb0r
        · exact absurd hblt hlt
        · rcases ih acc m ⟨b0, hb0r, hbav, hblt⟩ with ⟨r, hr⟩
          exact ⟨r, by simpa [selectLoop, check_backend_available, hav, hlt] using hr⟩

/-- If no list element probes available, the loop returns its accumulator unchanged. -/
theorem selectLoop_none_of_unavail (avail : String → Bool) (l : List Backend) :
    ∀ (acc : Option Backend) (m : Nat),
      (∀ b ∈ l, avail b.address = false) → selectLoop avail l acc m = acc := by
  induction l with
  | nil => intro acc m _; rfl
  | cons b rest ih =>
    intro acc m hun
    have hav : avail b.address = false := hun b (List.mem_cons_self b rest)
    have hrest : ∀ b ∈ rest, avail b.address = false := by
      intro c hc; exact hun c (List.mem_cons_of_mem b hc)
    simpa [selectLoop, check_backend_available, hav] using ih acc m hrest

/-- The probe oracle that reports every backend reachable. -/
def availTrue : String → Bool := fun _ => true

/-- The probe oracle that reports every backend unreachable. -/
def availFalse : String → Bool := fun _ => false

/-- A reachable backend whose counter sits at `usize::MAX`. -/
def backendMax : Backend :=
  { address := "192.168.1.200:80", active_connections := USIZE_MAX }

/-- C1, counterexample: a pool whose only backend is reachable but sits at
`usize::MAX` active connections defeats the claim: every backend probes reachable,
yet `select_backend` returns `none` instead of the minimum-count backend. -/
theorem C1_counterexample :
    availTrue backendMax.address = true ∧
    select_backend availTrue [backendMax] = none := by
  constructor
  · rfl
  · decide

/-- C1 (amended): for every pool whose backends all probe reachable and at least one
of which has a count strictly below `usize::MAX`, `select_backend` returns `some r`
where `r` achieves the minimum count over the pool and is strictly below every
earlier-listed backend (so the earliest-listed backend wins every tie). -/
theorem C1_select_least_loaded (avail : String → Bool) (pool : List Backend)
    (hall : ∀ b ∈ pool, avail b.address = true)
    (hex : ∃ b ∈ pool, b.active_connections < USIZE_MAX) :
    ∃ r l1 l2, select_backend avail pool = some r ∧ pool = l1 ++ (r :: l2) ∧
      (∀ c ∈ pool, r.active_connections ≤ c.active_connections) ∧
      (∀ c ∈ l1, r.active_connections < c.active_connections) := by
  rcases hex with ⟨b0, hb0, hb0lt⟩
  rcases selectLoop_isSome avail pool none USIZE_MAX ⟨b0, hb0, hall b0 hb0, hb0lt⟩ with ⟨r, hr⟩
  rcases select_backend_spec avail pool r hr with ⟨l1, l2, hsplit, _, _, hbefore, hafter⟩
  refine ⟨r, l1, l2, hr, hsplit, ?_, ?_⟩
  · intro c hc
    rw [hsplit] at hc
    rcases List.mem_append.mp hc with hc1 | hc2
    · exact Nat.le_of_lt (hbefore c hc1 (hall c (by rw [hsplit]; exact List.mem_append_left _ hc1)))
    · rcases List.mem_cons.mp hc2 with rfl | hc2r
      · exact Nat.le_refl _
      · exact hafter c hc2r (hall c (by
          rw [hsplit]
          exact List.mem_append_right _ (List.mem_cons_of_mem r hc2r)))
  · intro c hc
    exact hbefore c hc (hall c (by rw [hsplit]; exact List.mem_append_left _ hc))

/-- Concrete pool for the C1 witness: distinct counts with a tie further down. -/
def cpoolW : List Backend :=
  [{ address := "A", active_connections := 2 },
   { address := "B", active_connections := 1 },
   { address := "C", active_connections := 1 }]

/-- Witness for `C1_select_least_loaded` at a concrete all-reachable pool. -/
theorem C1_select_least_loaded_witness :
    (∀ b ∈ cpoolW, availTrue b.address = true) ∧
    (∃ b ∈ cpoolW, b.active_connections < USIZE_MAX) ∧
    (∃ r l1 l2, select_backend availTrue cpoolW = some r ∧ cpoolW = l1 ++ (r :: l2) ∧
      (∀ c ∈ cpoolW, r.active_connections ≤ c.active_connections) ∧
      (∀ c ∈ l1, r.active_connections < c.active_connections)) :=
  ⟨by decide, by decide,
    C1_select_least_loaded availTrue cpoolW (by decide) (by decide)⟩

/-- The probe oracle of the spec scenario: every address except "C" is reachable. -/
def availABC : String → Bool := fun a => a != "C"

/-- Scenario backend A: count 2, reachable. -/
def cA : Backend := { address := "A", active_connections := 2 }

/-- Scenario backend B: count 1, reachable. -/
def cB : Backend := { address := "B", active_connections := 1 }

/-- Scenario backend C: count 0, unreachable. -/
def cC : Backend := { address := "C", active_connections := 0 }

/-- The spec scenario pool [A(2, reachable), B(1, reachable), C(0, unreachable)]. -/
def cpoolABC : List Backend := [cA, cB, cC]

/-- C2: a backend whose probe fails is never the result of `select_backend`, even if
its counter is lowest; on the scenario pool [A(2), B(1), C(0, unreachable)] the
selection returns B. -/
theorem C2_unreachable_excluded :
    (∀ (avail : String → Bool) (pool : List Backend) (b : Backend),
      avail b.address = false → select_backend avail pool ≠ some b) ∧
    select_backend availABC cpoolABC = some cB := by
  constructor
  · intro avail pool b hb h
    rcases select_backend_spec avail pool b h with ⟨l1, l2, _, hav, _, _, _⟩
    rw [hb] at hav
    exact absurd hav (by simp)
  · decide

/-- Witness for `C2_unreachable_excluded` at the unreachable scenario backend C. -/
theorem C2_unreachable_excluded_witness :
    availABC cC.address = false ∧ select_backend availABC cpoolABC ≠ some cC :=
  ⟨by decide, C2_unreachable_excluded.1 availABC cpoolABC cC (by decide)⟩

/-- C10: `select_backend` can only return a backend whose counter is strictly below
`usize::MAX`; consequently a pool whose reachable backends all sit at `usize::MAX`
yields `none` even though reachable backends exist. -/
theorem C10_usize_max_never_selected :
    (∀ (avail : String → Bool) (pool : List Backend) (r : Backend),
      select_backend avail pool = some r → r.active_connections < USIZE_MAX) ∧
    (∀ (avail : String → Bool) (pool : List Backend),
      (∃ b ∈ pool, avail b.address = true) →
      (∀ b ∈ pool, avail b.address = true → b.active_connections = USIZE_MAX) →
      select_backend avail pool = none) := by
  constructor
  · intro avail pool r h
    rcases select_backend_spec avail pool r h with ⟨l1, l2, _, _, hlt, _, _⟩
    exact hlt
  · intro avail pool _hex hmax
    cases hsel : select_backend avail pool with
    | none => rfl
    | some r =>
      rcases select_backend_spec avail pool r hsel with ⟨l1, l2, hsplit, hav, hlt, _, _⟩
      have hrmem : r ∈ pool := by
        rw [hsplit]
        exact List.mem_append_right _ (List.mem_cons_self r l2)
      have heq := hmax r hrmem hav
      omega

/-- Witness for `C10_usize_max_never_selected` on a reachable single-backend pool
pinned at `usize::MAX`. -/
theorem C10_usize_max_never_selected_witness :
    (∃ b ∈ [backendMax], availTrue b.address = true) ∧
    select_backend availTrue [backendMax] = none :=
  ⟨by decide,
    C10_usize_max_never_selected.2 availTrue [backendMax] (by decide) (by decide)⟩

/-- Outcome of one iteration of the accept loop (main.rs lines 73-99) after a
connection has been accepted. `task` is the backend a handler task was spawned for
(the task itself then increments, relays, decrements); `pool` holds the counters as
the dispatcher leaves them (the dispatcher itself touches no counter); on the `none`
branch the accepted socket is dropped, i.e. closed, which `client_closed` records. -/
structure DispatchResult where
  task : Option Backend
  pool : List Backend
  client_closed : Bool
deriving DecidableEq, Repr

/-- One dispatcher iteration (main.rs lines 75-99): run the selection; on `Some`,
spawn a handler for the chosen backend; on `None`, log and drop the client socket. -/
def dispatch_step (avail : String → Bool) (pool : List Backend) : DispatchResult :=
  match select_backend avail pool with
  | some backend => { task := some backend, pool := pool, client_closed := false }
  | none => { task := none, pool := pool, client_closed := true }

/-- C3: on an empty pool, or when every backend fails its probe, the selection
returns `none`; the dispatcher then spawns no handler, closes the accepted client
connection, and leaves every counter untouched. -/
theorem C3_reject_on_no_backend (avail : String → Bool) (pool : List Backend)
    (h : pool = [] ∨ ∀ b ∈ pool, avail b.address = false) :
    select_backend avail pool = none ∧
    (dispatch_step avail pool).client_closed = true ∧
    (dispatch_step avail pool).task = none ∧
    (dispatch_step avail pool).pool = pool := by
  have hnone : select_backend avail pool = none := by
    rcases h with rfl | hun
    · rfl
    · exact selectLoop_none_of_unavail avail pool none USIZE_MAX hun
  refine ⟨hnone, ?_, ?_, ?_⟩ <;> simp [dispatch_step, hnone]

/-- Witness for `C3_reject_on_no_backend`: the scenario pool with an all-failing probe. -/
theorem C3_reject_on_no_backend_witness :
    (cpoolABC = [] ∨ ∀ b ∈ cpoolABC, availFalse b.address = false) ∧
    (select_backend availFalse cpoolABC = none ∧
      (dispatch_step availFalse cpoolABC).client_closed = true ∧
      (dispatch_step availFalse cpoolABC).task = none ∧
      (dispatch_step availFalse cpoolABC).pool = cpoolABC) :=
  ⟨Or.inr (by decide), C3_reject_on_no_backend availFalse cpoolABC (Or.inr (by decide))⟩

/-- Pool construction as the source performs it (main.rs lines 58-68): each supplied
address is wrapped into a `Backend` whose shared counter starts at zero
(`Arc::new(Mutex::new(0))`). The source has no emptiness check and no failure path. -/
def mkPool (addrs : List String) : List Backend :=
  addrs.map (fun a => { address := a, active_connections := 0 })

/-- The concrete two-backend pool hard-coded in `main` (lines 58-66). -/
def mainPool : List Backend := mkPool ["192.168.1.200:80", "192.168.1.27:80"]

/-- C9, counterexample: construction from the empty list does not fail — it yields
the empty pool, a perfectly formed value on which selection simply returns `none`. -/
theorem C9_counterexample :
    mkPool [] = ([] : List Backend) ∧
    select_backend availTrue (mkPool []) = none := by
  constructor
  · rfl
  · rfl

/-- C9 (amended): pool construction wraps each endpoint in a counter initialized to
zero, preserving order and length; it performs no emptiness check, so the empty list
yields the empty pool (and selection over it returns `none`) rather than failing. -/
theorem C9_pool_construction (addrs : List String) :
    (mkPool addrs).length = addrs.length ∧
    (∀ b ∈ mkPool addrs, b.active_connections = 0) ∧
    (mkPool addrs).map Backend.address = addrs ∧
    (∀ avail : String → Bool, select_backend avail (mkPool []) = none) := by
  refine ⟨List.length_map _ _, ?_, ?_, ?_⟩
  · intro b hb
    rcases List.mem_map.mp hb with ⟨a, _, rfl⟩
    rfl
  · simp only [mkPool, List.map_map]
    exact List.map_id addrs
  · intro avail
    rfl

/-- Witness for `C9_pool_construction` at a concrete one-address list. -/
theorem C9_pool_construction_witness :
    (mkPool ["A"]).length = (["A"] : List String).length ∧
    (∀ b ∈ mkPool ["A"], b.active_connections = 0) ∧
    (mkPool ["A"]).map Backend.address = ["A"] ∧
    (∀ avail : String → Bool, select_backend avail (mkPool []) = none) :=
  C9_pool_construction ["A"]

/-- The error a relay run can surface, classifying which statement produced the
boxed error in `handle_connection` (main.rs lines 109-134). -/
inductive RelayError
  | backendUnreachable
  | copyIOError
  | shutdownIOError
deriving DecidableEq, Repr

/-- `Result<(), Box<dyn Error + Send>>` of `handle_connection`. -/
inductive RelayResult
  | ok
  | error (e : RelayError)
deriving DecidableEq, Repr

/-- `RelayResult.is_ok`, mirroring `Result::is_ok`. -/
def RelayResult.is_ok : RelayResult → Bool
  | .ok => true
  | .error _ => false

/-- One operation `handle_connection` performed (awaited to completion) on its
sockets, in order: the backend connect attempt, a fully awaited `io::copy`
direction, or a `shutdown` of a write half. An `io::copy` future that was started
but dropped by `tokio::select!` before completing does not appear. -/
inductive SockOp
  | connectAttempt (ok : Bool)
  | copyClientToBackend
  | copyBackendToClient
  | shutdownBackendWrite
  | shutdownClientWrite
deriving DecidableEq, Repr

/-- Outcome an `io::copy` direction would produce when awaited to completion:
EOF reached after transferring `bytes`, or an I/O error. -/
inductive CopyOutcome
  | done (bytes : Nat)
  | ioError
deriving DecidableEq, Repr

/-- The nondeterministic environment of one `handle_connection` run: whether the
backend TCP connect succeeds, which `tokio::select!` branch completes first,
each direction's copy outcome, and whether each `shutdown` call succeeds. -/
structure RelayWorld where
  connectOk : Bool
  clientToServerFirst : Bool
  c2s : CopyOutcome
  s2c : CopyOutcome
  shutdownBackendOk : Bool
  shutdownClientOk : Bool
deriving DecidableEq, Repr

/-- `handle_connection` (main.rs lines 109-134) over a `RelayWorld`: connect to the
backend (on failure, return the error having done nothing else); otherwise race the
two `io::copy` directions with `tokio::select!`; the branch that completes first has
its result `?`-propagated and, on success, the write half it was copying into is
shut down; the losing copy future is dropped, never awaited. Returns the ordered
list of socket operations performed together with the `Result`. -/
def handle_connection (w : RelayWorld) : List SockOp × RelayResult :=
  if w.connectOk then
    if w.clientToServerFirst then
      match w.c2s with
      | .ioError => ([.connectAttempt true, .copyClientToBackend], .error .copyIOError)
      | .done _ =>
        if w.shutdownBackendOk then
          ([.connectAttempt true, .copyClientToBackend, .shutdownBackendWrite], .ok)
        else
          ([.connectAttempt true, .copyClientToBackend, .shutdownBackendWrite],
            .error .shutdownIOError)
    else
      match w.s2c with
      | .ioError => ([.connectAttempt true, .copyBackendToClient], .error .copyIOError)
      | .done _ =>
        if w.shutdownClientOk then
          ([.connectAttempt true, .copyBackendToClient, .shutdownClientWrite], .ok)
        else
          ([.connectAttempt true, .copyBackendToClient, .shutdownClientWrite],
            .error .shutdownIOError)
  else
    ([.connectAttempt false], .error .backendUnreachable)

/-- A world where the backend connect succeeds, both copies reach EOF, but the
backend-write `shutdown` after the winning client→backend copy fails. -/
def wShutFail : RelayWorld :=
  { connectOk := true, clientToServerFirst := true, c2s := .done 4, s2c := .done 4,
    shutdownBackendOk := false, shutdownClientOk := true }

/-- A world where the backend→client copy wins the race with a clean EOF while the
dropped client→backend copy carries an I/O error that is never awaited. -/
def wLoserErr : RelayWorld :=
  { connectOk := true, clientToServerFirst := false, c2s := .ioError, s2c := .done 4,
    shutdownBackendOk := true, shutdownClientOk := true }

/-- C5, counterexample to the stated "exactly when": (a) at `wShutFail` the relay
returns an error although the connect succeeded and no copy direction had an I/O
error — the failing `shutdown` is a third error source; (b) at `wLoserErr` a copy
direction has an I/O error yet the relay returns `Ok`, because only the
first-completed branch of `tokio::select!` is awaited. -/
theorem C5_counterexample :
    (wShutFail.connectOk = true ∧ wShutFail.c2s ≠ .ioError ∧ wShutFail.s2c ≠ .ioError ∧
      (handle_connection wShutFail).2 = .error .shutdownIOError) ∧
    (wLoserErr.c2s = .ioError ∧ (handle_connection wLoserErr).2 = .ok) := by
  decide

/-- C5 (amended): the relay returns an error exactly when the backend connect fails,
or the copy direction that completes first ends in an I/O error, or the shutdown
after a successful first copy fails; an I/O error confined to the direction that did
not complete first is not surfaced. When the connect fails the relay performs no
operation at all on the client socket (in particular writes no bytes to it) and
returns `BackendUnreachable`. No copy direction is ever attempted more than once. -/
theorem C5_relay_error_conditions :
    (∀ w : RelayWorld,
      (handle_connection w).2.is_ok = false ↔
        (w.connectOk = false ∨
         (w.clientToServerFirst = true ∧ w.c2s = .ioError) ∨
         (w.clientToServerFirst = false ∧ w.s2c = .ioError) ∨
         (w.clientToServerFirst = true ∧ w.c2s ≠ .ioError ∧ w.shutdownBackendOk = false) ∨
         (w.clientToServerFirst = false ∧ w.s2c ≠ .ioError ∧ w.shutdownClientOk = false))) ∧
    (∀ w : RelayWorld, w.connectOk = false →
      (handle_connection w).1 = [.connectAttempt false] ∧
      (handle_connection w).2 = .error .backendUnreachable) ∧
    (∀ w : RelayWorld,
      (handle_connection w).1.count .copyClientToBackend ≤ 1 ∧
      (handle_connection w).1.count .copyBackendToClient ≤ 1) := by
  refine ⟨?_, ?_, ?_⟩
  · intro w
    obtain ⟨co, fst, c2s, s2c, sbo, sco⟩ := w
    cases co <;> cases fst <;> cases c2s <;> cases s2c <;> cases sbo <;> cases sco <;>
      simp [handle_connection, RelayResult.is_ok]
  · intro w hco
    obtain ⟨co, fst, c2s, s2c, sbo, sco⟩ := w
    cases co
    · exact ⟨rfl, rfl⟩
    · exact absurd hco (by simp)
  · intro w
    obtain ⟨co, fst, c2s, s2c, sbo, sco⟩ := w
    cases co <;> cases fst <;> cases c2s <;> cases s2c <;> cases sbo <;> cases sco <;>
      simp [handle_connection]

/-- A world where the backend connect fails (connection refused after a successful
probe). -/
def wConnFail : RelayWorld :=
  { connectOk := false, clientToServerFirst := true, c2s := .done 0, s2c := .done 0,
    shutdownBackendOk := true, shutdownClientOk := true }

/-- Witness for `C5_relay_error_conditions` at the connect-failure world. -/
theorem C5_relay_error_conditions_witness :
    ((handle_connection wConnFail).2.is_ok = false ↔
      (wConnFail.connectOk = false ∨
       (wConnFail.clientToServerFirst = true ∧ wConnFail.c2s = .ioError) ∨
       (wConnFail.clientToServerFirst = false ∧ wConnFail.s2c = .ioError) ∨
       (wConnFail.clientToServerFirst = true ∧ wConnFail.c2s ≠ .ioError ∧
         wConnFail.shutdownBackendOk = false) ∨
       (wConnFail.clientToServerFirst = false ∧ wConnFail.s2c ≠ .ioError ∧
         wConnFail.shutdownClientOk = false))) ∧
    ((handle_connection wConnFail).1 = [.connectAttempt false] ∧
      (handle_connection wConnFail).2 = .error .backendUnreachable) ∧
    ((handle_connection wConnFail).1.count .copyClientToBackend ≤ 1 ∧
      (handle_connection wConnFail).1.count .copyBackendToClient ≤ 1) :=
  ⟨(C5_relay_error_conditions.1 wConnFail),
   (C5_relay_error_conditions.2.1 wConnFail rfl),
   (C5_relay_error_conditions.2.2 wConnFail)⟩

/-- A world where the client→backend copy completes first with an I/O error. -/
def wC2SErr : RelayWorld :=
  { connectOk := true, clientToServerFirst := true, c2s := .ioError, s2c := .done 0,
    shutdownBackendOk := true, shutdownClientOk := true }

/-- C6, counterexample: the client→backend copy finishes first — by erroring — and
the claimed half-close never happens: the `?` on the copy result returns before
either `shutdown` call is reached, so neither write half is shut down. -/
theorem C6_counterexample :
    wC2SErr.clientToServerFirst = true ∧
    SockOp.shutdownBackendWrite ∉ (handle_connection wC2SErr).1 ∧
    SockOp.shutdownClientWrite ∉ (handle_connection wC2SErr).1 := by
  decide

/-- C6 (amended): when the first-finishing copy direction completes successfully
(EOF), the relay shuts down the write half that direction was copying into —
the backend-write half if client→backend finished first, the client-write half if
backend→client finished first; when the first-finishing copy ends in an I/O error,
no half-close is performed at all. -/
theorem C6_half_close (w : RelayWorld) (hco : w.connectOk = true) :
    (w.clientToServerFirst = true → ∀ n, w.c2s = .done n →
      (handle_connection w).1 =
        [.connectAttempt true, .copyClientToBackend, .shutdownBackendWrite]) ∧
    (w.clientToServerFirst = false → ∀ n, w.s2c = .done n →
      (handle_connection w).1 =
        [.connectAttempt true, .copyBackendToClient, .shutdownClientWrite]) ∧
    (w.clientToServerFirst = true → w.c2s = .ioError →
      SockOp.shutdownBackendWrite ∉ (handle_connection w).1 ∧
      SockOp.shutdownClientWrite ∉ (handle_connection w).1) ∧
    (w.clientToServerFirst = false → w.s2c = .ioError →
      SockOp.shutdownBackendWrite ∉ (handle_connection w).1 ∧
      SockOp.shutdownClientWrite ∉ (handle_connection w).1) := by
  obtain ⟨co, fst, c2s, s2c, sbo, sco⟩ := w
  cases co
  · exact absurd hco (by simp)
  · cases fst <;> cases c2s <;> cases s2c <;> cases sbo <;> cases sco <;>
      simp [handle_connection]

/-- A world for the C6 witness: backend→client finishes first at EOF, shutdowns fine. -/
def wEchoDone : RelayWorld :=
  { connectOk := true, clientToServerFirst := false, c2s := .done 4, s2c := .done 4,
    shutdownBackendOk := true, shutdownClientOk := true }

/-- Witness for `C6_half_close` at `wEchoDone`: backend→client finished first, so the
client-write half is the one shut down. -/
theorem C6_half_close_witness :
    (wEchoDone.clientToServerFirst = true → ∀ n, wEchoDone.c2s = .done n →
      (handle_connection wEchoDone).1 =
        [.connectAttempt true, .copyClientToBackend, .shutdownBackendWrite]) ∧
    (wEchoDone.clientToServerFirst = false → ∀ n, wEchoDone.s2c = .done n →
      (handle_connection wEchoDone).1 =
        [.connectAttempt true, .copyBackendToClient, .shutdownClientWrite]) ∧
    (wEchoDone.clientToServerFirst = true → wEchoDone.c2s = .ioError →
      SockOp.shutdownBackendWrite ∉ (handle_connection wEchoDone).1 ∧
      SockOp.shutdownClientWrite ∉ (handle_connection wEchoDone).1) ∧
    (wEchoDone.clientToServerFirst = false → wEchoDone.s2c = .ioError →
      SockOp.shutdownBackendWrite ∉ (handle_connection wEchoDone).1 ∧
      SockOp.shutdownClientWrite ∉ (handle_connection wEchoDone).1) :=
  C6_half_close wEchoDone rfl

/-- The C7 failing input: the client sends its bytes and closes its write side, so
the client→backend copy completes first, while the backend→client direction still
has bytes in flight (it would itself reach EOF after transferring them). -/
def wClientEOF : RelayWorld :=
  { connectOk := true, clientToServerFirst := true, c2s := .done 4, s2c := .done 4,
    shutdownBackendOk := true, shutdownClientOk := true }

/-- C7, divergence at `wClientEOF`: the relay does shut the backend-write half down
promptly after the client EOF, but then returns success immediately — the
backend→client copy is dropped by `tokio::select!` without ever being awaited, so
the in-flight backend→client bytes are never delivered to the client before
teardown, contrary to the claim. -/
theorem C7_inflight_dropped :
    (handle_connection wClientEOF).2 = .ok ∧
    SockOp.shutdownBackendWrite ∈ (handle_connection wClientEOF).1 ∧
    SockOp.copyBackendToClient ∉ (handle_connection wClientEOF).1 := by
  decide

/-- The observable steps of one dispatcher iteration that found a backend, and of
the handler task it spawns (main.rs lines 75-96). -/
inductive LBEvent
  | selectBackend
  | spawnHandler
  | lockIncrement
  | runRelay
  | lockDecrement
  | logRelayError
deriving DecidableEq, Repr

/-- Program order inside the spawned handler task (main.rs lines 80-95): lock and
increment the counter, await `handle_connection`, lock and decrement the counter,
then log if the relay failed. -/
def spawnedTaskEvents (relay_failed : Bool) : List LBEvent :=
  [.lockIncrement, .runRelay, .lockDecrement] ++
    (if relay_failed then [.logRelayError] else [])

/-- Program order of the dispatcher arm that found a backend (main.rs lines 75-96):
select, then `tokio::spawn` the handler task, whose own statements follow. -/
def dispatchIterationEvents (relay_failed : Bool) : List LBEvent :=
  [.selectBackend, .spawnHandler] ++ spawnedTaskEvents relay_failed

/-- C8, counterexample: in the source's program order the `tokio::spawn` launching
the handler task strictly precedes the counter increment — the increment is the
spawned task's first statement, not a dispatcher statement at selection time — so
the increment is not ordered before the task launch as claimed. -/
theorem C8_counterexample :
    List.indexOf LBEvent.spawnHandler (dispatchIterationEvents false) <
      List.indexOf LBEvent.lockIncrement (dispatchIterationEvents false) ∧
    ¬ List.indexOf LBEvent.lockIncrement (dispatchIterationEvents false) <
        List.indexOf LBEvent.spawnHandler (dispatchIterationEvents false) := by
  decide

/-- C8 (amended): for every accepted connection with a selected backend, the handler
task increments the chosen backend's counter as its first action, before the relay
runs, and decrements it exactly once after the relay terminates, whether the relay
failed or not; the increment happens inside the spawned task, after the
`tokio::spawn` launch rather than before it. -/
theorem C8_increment_in_task :
    (∀ rf : Bool,
      List.indexOf LBEvent.lockIncrement (spawnedTaskEvents rf) <
        List.indexOf LBEvent.runRelay (spawnedTaskEvents rf) ∧
      List.indexOf LBEvent.runRelay (spawnedTaskEvents rf) <
        List.indexOf LBEvent.lockDecrement (spawnedTaskEvents rf) ∧
      (spawnedTaskEvents rf).count LBEvent.lockIncrement = 1 ∧
      (spawnedTaskEvents rf).count LBEvent.lockDecrement = 1 ∧
      (dispatchIterationEvents rf).count LBEvent.lockIncrement = 1 ∧
      (dispatchIterationEvents rf).count LBEvent.lockDecrement = 1 ∧
      List.indexOf LBEvent.spawnHandler (dispatchIterationEvents rf) <
        List.indexOf LBEvent.lockIncrement (dispatchIterationEvents rf)) := by
  intro rf
  cases rf <;> decide

/-- Splitting a prefix of an appended list: it is a prefix of the left part, or it
extends the left part by a prefix of the right part. -/
theorem prefix_append_cases {α : Type} {a b s : List α} (h : s <+: a ++ b) :
    s <+: a ∨ ∃ t, s = a ++ t ∧ t <+: b := by
  induction a generalizing s with
  | nil => exact Or.inr ⟨s, rfl, h⟩
  | cons x a ih =>
    cases s with
    | nil => exact Or.inl ⟨x :: a, rfl⟩
    | cons y s =>
      rw [List.cons_append] at h
      obtain ⟨rfl, h2⟩ := List.cons_prefix_cons.mp h
      rcases ih h2 with h3 | ⟨u, rfl, hu⟩
      · exact Or.inl (List.cons_prefix_cons.mpr ⟨rfl, h3⟩)
      · exact Or.inr ⟨u, by rw [List.cons_append], hu⟩

/-- Appending a common list on the left preserves prefixes. -/
theorem prefix_append_left {α : Type} (p : List α) {l1 l2 : List α} (h : l1 <+: l2) :
    p ++ l1 <+: p ++ l2 := by
  obtain ⟨t, rfl⟩ := h
  exact ⟨t, by rw [List.append_assoc]⟩

/-- One shared-counter operation by a handler task: `true` is the increment
`*active_conns += 1` (main.rs line 82), `false` the decrement `*active_conns -= 1`
(main.rs line 89); `usize` subtraction is modelled as truncated `Nat` subtraction. -/
def applyCounterOp (c : Nat) (e : Bool) : Nat := if e then c + 1 else c - 1

/-- The counter value after running a sequence of counter operations from `c`. -/
def runCounter (c : Nat) (tr : List Bool) : Nat := tr.foldl applyCounterOp c

/-- The operation sequences one backend's shared counter can observe (main.rs lines
80-96): each spawned handler contributes exactly one increment followed — at any
later point — by exactly one decrement, and the contributions of distinct handler
tasks interleave arbitrarily. `insert` threads one further handler's pair into an
existing trace, increment strictly before decrement. -/
inductive HandlerTrace : List Bool → Prop
  | nil : HandlerTrace []
  | insert (p q r : List Bool) : HandlerTrace ((p ++ q) ++ r) →
      HandlerTrace (p ++ (true :: (q ++ (false :: r))))

/-- Every prefix of a handler trace has at least as many increments as decrements,
and the full trace has exactly as many. -/
theorem handlerTrace_balance {tr : List Bool} (h : HandlerTrace tr) :
    (∀ s, s <+: tr → s.count false ≤ s.count true) ∧ tr.count false = tr.count true := by
  induction h with
  | nil =>
    constructor
    · intro s hs
      rw [List.prefix_nil.mp hs]
      simp
    · rfl
  | insert p q r _h ih =>
    obtain ⟨ihp, ihc⟩ := ih
    have hppre : p <+: (p ++ q) ++ r :=
      (List.prefix_append p q).trans (List.prefix_append (p ++ q) r)
    constructor
    · intro s hs
      rcases prefix_append_cases hs with hsp | ⟨t, rfl, ht⟩
      · exact ihp s (hsp.trans hppre)
      · cases t with
        | nil =>
          have := ihp p hppre
          simpa using this
        | cons e t =>
          obtain ⟨rfl, ht2⟩ := List.cons_prefix_cons.mp ht
          rcases prefix_append_cases ht2 with htq | ⟨u, rfl, hu⟩
          · have hcnt := ihp (p ++ t) ((prefix_append_left p htq).trans
              (List.prefix_append (p ++ q) r))
            simp only [List.count_append, List.count_cons] at hcnt ⊢
            simp at hcnt ⊢
            omega
          · cases u with
            | nil =>
              have hcnt := ihp (p ++ q) (List.prefix_append (p ++ q) r)
              simp only [List.count_append, List.count_cons] at hcnt ⊢
              simp at hcnt ⊢
              omega
            | cons e2 u =>
              obtain ⟨rfl, hu2⟩ := List.cons_prefix_cons.mp hu
              have hcnt := ihp ((p ++ q) ++ u) (prefix_append_left (p ++ q) hu2)
              simp only [List.count_append, List.count_cons] at hcnt ⊢
              simp at hcnt ⊢
              omega
    · simp only [List.count_append, List.count_cons] at ihc ⊢
      simp at ihc ⊢
      omega

/-- On prefix-balanced traces the counter computed with truncated `usize`
subtraction equals increments minus decrements — no subtraction ever truncates. -/
theorem runCounter_eq_counts (tr : List Bool) :
    (∀ s, s <+: tr → s.count false ≤ s.count true) →
    runCounter 0 tr = tr.count true - tr.count false := by
  induction tr using List.reverseRecOn with
  | nil => intro _; rfl
  | append_singleton l e ih =>
    intro h
    have hl : ∀ s, s <+: l → s.count false ≤ s.count true := fun s hs =>
      h s (hs.trans (List.prefix_append l [e]))
    have ihl := ih hl
    have hle := hl l List.prefix_rfl
    have hrun : runCounter 0 (l ++ [e]) = applyCounterOp (runCounter 0 l) e := by
      simp [runCounter, List.foldl_append]
    cases e with
    | false =>
      rw [hrun, ihl]
      simp [applyCounterOp, List.count_append, List.count_cons]
      omega
    | true =>
      rw [hrun, ihl]
      simp [applyCounterOp, List.count_append, List.count_cons]
      omega

/-- C4: over every interleaving of handler contributions, the shared counter —
incremented exactly once per assigned connection and decremented exactly once when
that connection's relay terminates — never goes negative (every decrement finds a
strictly positive counter, so the `usize` subtraction cannot underflow) and returns
to 0 once all handlers have terminated. -/
theorem C4_counter_pairing {tr : List Bool} (h : HandlerTrace tr) :
    runCounter 0 tr = 0 ∧
    (∀ s, s <+: tr → s.count false ≤ s.count true) ∧
    (∀ p q, tr = p ++ (false :: q) → 0 < runCounter 0 p) := by
  obtain ⟨hpre, heq⟩ := handlerTrace_balance h
  refine ⟨?_, hpre, ?_⟩
  · rw [runCounter_eq_counts tr hpre, heq]
    omega
  · intro p q hpq
    have hp : ∀ s, s <+: p → s.count false ≤ s.count true := by
      intro s hs
      refine hpre s (hs.trans ?_)
      have h1 : p <+: p ++ (false :: q) := List.prefix_append _ _
      rw [← hpq] at h1
      exact h1
    have h2 : (p ++ [false]) <+: (p ++ [false]) ++ q := List.prefix_append _ _
    have h3 : (p ++ [false]) ++ q = tr := by
      rw [hpq, List.append_assoc]
      rfl
    rw [h3] at h2
    have hpf := hpre (p ++ [false]) h2
    rw [runCounter_eq_counts p hp]
    simp [List.count_append, List.count_cons] at hpf
    omega

/-- The concrete counter trace of two temporally overlapping connections: both
handlers increment, then both decrement. -/
def trTwoConn : List Bool := [true, true, false, false]

/-- Witness for `C4_counter_pairing` on the trace of two overlapping connections. -/
theorem C4_counter_pairing_witness :
    runCounter 0 trTwoConn = 0 ∧
    (∀ s, s <+: trTwoConn → s.count false ≤ s.count true) ∧
    (∀ p q, trTwoConn = p ++ (false :: q) → 0 < runCounter 0 p) :=
  C4_counter_pairing
    (HandlerTrace.insert [true] [false] [] (HandlerTrace.insert [] [] [] HandlerTrace.nil))
